import Mathlib

/-!
Verification of `utils.mjs` (node-pdfjs).

A shallow embedding of the four utility functions of `src/utils.mjs`
(`getTextFromPDF`, `readQuestionsFromFile`, `saveQuestionsToFile`,
`structureResponse`) followed by theorems about them.

JavaScript strings are embedded as lists of characters.  Every separator the
program splits on (`'\n'`, `'?'`) and the prefix it tests for
(`"Questions: "`) are ASCII, so the distinction between UTF-16 code units and
code points plays no role in what follows.
-/

set_option autoImplicit false

namespace NodePdfjs

/-! ## JavaScript primitives used by the program -/

/-- A JavaScript string, as the list of its characters. -/
abbrev JSString := List Char

/-- The exceptions the program can raise. `typeError` is the `TypeError` of a
property access on `undefined`; `loadError` is a rejected promise of the PDF
library. -/
inductive JSError where
  | typeError
  | loadError
  deriving DecidableEq, Repr

/-- The method `String.prototype.split(sep)` for a one-character separator:
the pieces between the occurrences of `sep`, empty pieces included, so that
a string with `n` separators gives `n + 1` pieces and `''` gives `['']`. -/
def split (sep : Char) : JSString → List JSString
  | [] => [[]]
  | c :: cs =>
    if c = sep then [] :: split sep cs
    else
      match split sep cs with
      | [] => [[c]]
      | p :: ps => (c :: p) :: ps

/-- The method `Array.prototype.join(sep)` on an array of strings. -/
def join (sep : JSString) : List JSString → JSString
  | [] => []
  | [s] => s
  | s :: t :: ts => s ++ sep ++ join sep (t :: ts)

/-- The separator `Array.prototype.join` uses when called without argument. -/
def defaultJoinSeparator : JSString := [',']

/-- The characters `String.prototype.trim` removes: ECMAScript `WhiteSpace`
and `LineTerminator`. -/
def isWhiteSpace (c : Char) : Bool :=
  let n := c.toNat
  n == 0x09 || n == 0x0A || n == 0x0B || n == 0x0C || n == 0x0D || n == 0x20 ||
  n == 0xA0 || n == 0x1680 || (0x2000 ≤ n && n ≤ 0x200A) || n == 0x2028 ||
  n == 0x2029 || n == 0x202F || n == 0x205F || n == 0x3000 || n == 0xFEFF

/-- The method `String.prototype.trimStart`. -/
def trimStart (s : JSString) : JSString := s.dropWhile isWhiteSpace

/-- The method `String.prototype.trimEnd`. -/
def trimEnd (s : JSString) : JSString := (s.reverse.dropWhile isWhiteSpace).reverse

/-- The method `String.prototype.trim`. -/
def trim (s : JSString) : JSString := trimEnd (trimStart s)

/-- The method `String.prototype.startsWith(searchString)`. -/
def startsWith (s searchString : JSString) : Bool := searchString.isPrefixOf s

/-- The method `String.prototype.slice(start)` for a non-negative `start`. -/
def slice (s : JSString) (start : Nat) : JSString := s.drop start

/-! ## `getTextFromPDF` -/

/-- A text item of a page's text content (`item.str`). -/
structure TextItem where
  str : JSString

/-- The value `getTextContent()` resolves to. -/
structure TextContent where
  items : List TextItem

/-- A page of a loaded document. -/
structure PDFPage where
  getTextContent : Except JSError TextContent

/-- A loaded document: `doc.numPages` and `doc.getPage(i)`. -/
structure PDFDocument where
  numPages : Nat
  getPage : Nat → Except JSError PDFPage

/-- The loop `for (let i = 1; i <= numPages; i++)` of `getTextFromPDF`, by
recursion on the number of iterations that remain: it is entered with
`remaining = numPages` and `i = 1`, so `i ≤ numPages` holds exactly while
`remaining` is positive. -/
def getTextFromPDF.loop (doc : PDFDocument) :
    Nat → Nat → List JSString → Except JSError (List JSString)
  | 0, _, pageTexts => .ok pageTexts
  | remaining + 1, i, pageTexts => do
    let curr_page ← doc.getPage i
    let content ← curr_page.getTextContent
    let strings := content.items.map (fun item => item.str)
    getTextFromPDF.loop doc remaining (i + 1) (pageTexts ++ [join defaultJoinSeparator strings])

/-- The function `getTextFromPDF(path)`; `getDocument` stands for
`pdfjsLib.getDocument(path).promise`.  The `console.log` line has no effect on
the value returned and is left out. -/
def getTextFromPDF (getDocument : JSString → Except JSError PDFDocument) (path : JSString) :
    Except JSError (List JSString) := do
  let doc ← getDocument path
  let pageTexts : List JSString := []
  let numPages := doc.numPages
  getTextFromPDF.loop doc numPages 1 pageTexts

/-! ## `readQuestionsFromFile` -/

/-- The two mutable arrays of `readQuestionsFromFile`. -/
structure ReadState where
  questionArr : List (List JSString)
  tempArr : List JSString
  deriving DecidableEq, Repr

/-- The body of the `forEach` callback of `readQuestionsFromFile`. -/
def readStep (st : ReadState) (elem : JSString) : ReadState :=
  if elem != [] then
    { st with tempArr := st.tempArr ++ [elem] }
  else
    { questionArr := st.questionArr ++ [st.tempArr], tempArr := [] }

/-- The function `readQuestionsFromFile(path)`, as a function of the text
`readFileSync(path, ...)` returns. -/
def readQuestionsFromFile (text : JSString) : List (List JSString) :=
  let textArray := split '\n' text
  let st := textArray.foldl readStep { questionArr := [], tempArr := [] }
  let questionArr := st.questionArr ++ [st.tempArr]
  questionArr.filter (fun elem => elem.length != 0)

/-! ## `saveQuestionsToFile` -/

/-- The write stream of `saveQuestionsToFile`: the characters passed to
`write` so far, in order, and whether `end()` has been called. -/
structure WriteStream where
  written : JSString
  ended : Bool
  deriving DecidableEq, Repr

/-- The call `createWriteStream(fname)`. -/
def createWriteStream : WriteStream := { written := [], ended := false }

/-- The call `file.write(chunk)`. -/
def WriteStream.write (file : WriteStream) (chunk : JSString) : WriteStream :=
  { file with written := file.written ++ chunk }

/-- The call `file.end()`. -/
def WriteStream.endStream (file : WriteStream) : WriteStream :=
  { file with ended := true }

/-- The function `saveQuestionsToFile(arr, fname)`, returning the final state
of the stream. -/
def saveQuestionsToFile (arr : List (List JSString)) : WriteStream :=
  let file := createWriteStream
  let file := arr.foldl (fun file pageArr =>
    let file := pageArr.foldl (fun file question => file.write (question ++ ['\n'])) file
    file.write ['\n']) file
  file.endStream

/-! ## `structureResponse` -/

/-- The literal `"Questions: "`. -/
def questionsPrefix : JSString := ['Q', 'u', 'e', 's', 't', 'i', 'o', 'n', 's', ':', ' ']

/-- The function `structureResponse(response)`.  An array read `tempArr[0]` is
`tempArr[0]?`, with `none` for `undefined`; calling a method on `undefined`
throws a `TypeError`. -/
def structureResponse (response : JSString) : Except JSError (List JSString) :=
  let tempArr := split '\n' response
  let tempArr := tempArr.filter (fun question => question != [])
  if tempArr.length == 1 then
    match tempArr[0]? with
    | none => .error .typeError
    | some line =>
      let tempArr := split '?' line
      let tempArr := tempArr.filter (fun question => question != [])
      match tempArr[0]? with
      | none => .error .typeError
      | some first =>
        let tempArr :=
          if startsWith first questionsPrefix then tempArr.set 0 (slice first 11) else tempArr
        let tempArr := tempArr.map (fun elem => trim elem)
        let tempArr := tempArr.map (fun elem => elem ++ ['?'])
        .ok tempArr
  else
    .ok tempArr

deriving instance DecidableEq for Except

/-! ## Auxiliary definitions for the statements -/

/-- The last two statements of `readQuestionsFromFile`: push `tempArr`, then
filter out the empty groups. -/
def readFinish (st : ReadState) : List (List JSString) :=
  (st.questionArr ++ [st.tempArr]).filter (fun elem => elem.length != 0)

/-- The reader run on the lines `textArray`, entered with `questionArr` empty
and `tempArr` as given. -/
def readFrom (tempArr : List JSString) (textArray : List JSString) : List (List JSString) :=
  readFinish (textArray.foldl readStep { questionArr := [], tempArr := tempArr })

/-- The reader run on a text, entered with `tempArr` as given. -/
def parseFrom (tempArr : List JSString) (text : JSString) : List (List JSString) :=
  readFrom tempArr (split '\n' text)

/-- The lines of one group as text: each question followed by a newline. -/
def groupLines (g : List JSString) : JSString :=
  (g.map (fun question => question ++ ['\n'])).flatten

/-- The text of a collection in the blank-line-delimited format: for each
group in order, its lines and then one more newline. -/
def collectionText (arr : List (List JSString)) : JSString :=
  (arr.map (fun pageArr => groupLines pageArr ++ ['\n'])).flatten

/-- The text of `n` blank lines. -/
def blankLines (n : Nat) : JSString := List.replicate n '\n'

/-- A text laid out as `lead` blank lines followed, for each pair `(g, n)` of
`gs` in order, by the lines of `g` and `n` blank lines. -/
def layoutText (lead : Nat) (gs : List (List JSString × Nat)) : JSString :=
  blankLines lead ++ (gs.map (fun p => groupLines p.1 ++ blankLines p.2)).flatten

/-- A group is well formed when it is not empty and each of its questions is a
non-empty string without a newline. -/
def WellFormedGroup (g : List JSString) : Prop :=
  g ≠ [] ∧ ∀ q ∈ g, q ≠ [] ∧ '\n' ∉ q

instance : DecidablePred WellFormedGroup := fun g => by
  unfold WellFormedGroup
  infer_instance

/-- The document whose page `i` (counted from 1) yields the fragments
`pages[i - 1]`; asking for any other page is rejected. -/
def docOfPages (pages : List (List JSString)) : PDFDocument where
  numPages := pages.length
  getPage := fun i =>
    if 1 ≤ i ∧ i ≤ pages.length then
      .ok { getTextContent := .ok { items := (pages.getD (i - 1) []).map TextItem.mk } }
    else .error .loadError

/-- The text made of the lines `ls`, each terminated by a carriage return and
a newline. -/
def crlfText (ls : List JSString) : JSString :=
  (ls.map (fun l => l ++ ['\r', '\n'])).flatten

/-- A string has no leading and no trailing whitespace. -/
def NoOuterWhiteSpace (b : JSString) : Prop :=
  b.head?.all (fun c => !isWhiteSpace c) = true ∧
    b.getLast?.all (fun c => !isWhiteSpace c) = true

instance : DecidablePred NoOuterWhiteSpace := fun b => by
  unfold NoOuterWhiteSpace
  infer_instance

/-- The run-on response `"Questions: " + b1 + "? " + b2 + "? " + ... + bn + "?"`. -/
def runOnResponse (bs : List JSString) : JSString :=
  questionsPrefix ++ join ['?', ' '] bs ++ ['?']

/-- The text `" " + b1 + "?" + " " + b2 + "?" + ...` that follows the first
question mark of a run-on response. -/
def tailText (bs : List JSString) : JSString :=
  (bs.map (fun b => ' ' :: b ++ ['?'])).flatten

/-- The non-empty pieces of a response split on newlines. -/
def nonEmptyLines (response : JSString) : List JSString :=
  (split '\n' response).filter (fun question => question != [])

/-- One iteration of the loop of `getTextFromPDF`, as a function of the page
number: fetch the page, fetch its text content, join the fragments. -/
def pageText (doc : PDFDocument) (i : Nat) : Except JSError JSString := do
  let curr_page ← doc.getPage i
  let content ← curr_page.getTextContent
  pure (join defaultJoinSeparator (content.items.map (fun item => item.str)))

/-! ## `saveQuestionsToFile` on a stream that can fail

The calls `saveQuestionsToFile` makes on the stream (`createWriteStream`, `on`,
`write`, `end`) are requests: each queues work on the stream and returns.  The
stream performs the work after the function has returned, in this order: it
opens the file, writes the queued chunks one by one, and closes the file once
`end()` has been called.

The behaviour of the file system is a parameter `env`: `env 0` is the outcome
of the open, `env (k + 1)` the outcome of the write of the `k`-th chunk (counted
from 0) and, after `n` chunks, `env (n + 1)` the outcome of the close;
`some err` is a failure.  The first failure destroys the stream: no later
operation is attempted and the stream emits one `'error'` event, carrying
`err`, in its whole life.  The event is delivered to the listener registered
with `file.on('error', ...)`; with no listener it is an uncaught exception. -/

/-- The write stream as the calls of the program leave it: the stream itself,
whether an `'error'` listener is registered, and the number of chunks queued by
`write`. -/
structure FileState where
  stream : WriteStream
  errorListener : Bool
  writes : Nat
  deriving DecidableEq, Repr

/-- The call `createWriteStream(fname)`, no listener registered yet. -/
def createFileState : FileState :=
  { stream := createWriteStream, errorListener := false, writes := 0 }

/-- The call `file.on('error', function(err) { console.log("File write error:", err); })`. -/
def FileState.onError (file : FileState) : FileState :=
  { file with errorListener := true }

/-- The call `file.write(chunk)`: the chunk is queued. -/
def FileState.write (file : FileState) (chunk : JSString) : FileState :=
  { file with stream := file.stream.write chunk, writes := file.writes + 1 }

/-- The call `file.end()`. -/
def FileState.endStream (file : FileState) : FileState :=
  { file with stream := file.stream.endStream }

/-- The calls of `saveQuestionsToFile(arr, fname)` on the stream, in order. -/
def saveQuestionsToFileOnStream (arr : List (List JSString)) : FileState :=
  let file := createFileState
  let file := file.onError
  let file := arr.foldl (fun file pageArr =>
    let file := pageArr.foldl (fun file question => file.write (question ++ ['\n'])) file
    file.write ['\n']) file
  file.endStream

/-- The label of the log line of the listener. -/
def writeErrorLabel : JSString :=
  ['F', 'i', 'l', 'e', ' ', 'w', 'r', 'i', 't', 'e', ' ', 'e', 'r', 'r', 'o', 'r', ':']

/-- The number of operations the stream attempts when none fails: the open,
one write per queued chunk, and the close when `end()` was called. -/
def FileState.operations (file : FileState) : Nat :=
  1 + file.writes + (if file.stream.ended then 1 else 0)

/-- The error of the first failure among the first `n` operations, if any. -/
def firstFailure (env : Nat → Option JSString) (n : Nat) : Option JSString :=
  (List.range n).findSome? env

/-- What the program shows once the stream has done its work: the lines printed
by `console.log` (label and error) and the exception nobody caught, if any. -/
structure Outcome where
  log : List (JSString × JSString)
  uncaught : Option JSString
  deriving DecidableEq, Repr

/-- The stream doing its work against `env`: on the first failure it emits its
one `'error'` event, which the listener logs; without listener the error is
uncaught. -/
def FileState.settle (env : Nat → Option JSString) (file : FileState) : Outcome :=
  match firstFailure env file.operations with
  | none => { log := [], uncaught := none }
  | some err =>
    if file.errorListener then { log := [(writeErrorLabel, err)], uncaught := none }
    else { log := [], uncaught := some err }

/-- The number of `write` calls `saveQuestionsToFile` makes for a collection. -/
def writeCount (arr : List (List JSString)) : Nat :=
  (arr.map (fun pageArr => pageArr.length + 1)).sum

/-! ## Lemmas on `split` and `join` -/

theorem split_ne_nil (sep : Char) (s : JSString) : split sep s ≠ [] := by
  cases s with
  | nil => simp [split]
  | cons c cs =>
    unfold split
    split_ifs
    · simp
    · cases split sep cs <;> simp

theorem split_cons_sep (sep : Char) (s : JSString) :
    split sep (sep :: s) = [] :: split sep s := by
  simp [split]

theorem split_cons_ne (sep c : Char) (s : JSString) (h : c ≠ sep) :
    split sep (c :: s) = (c :: (split sep s).headI) :: (split sep s).tail := by
  have hne := split_ne_nil sep s
  rw [split, if_neg h]
  cases hs : split sep s with
  | nil => exact absurd hs hne
  | cons p ps => rfl

/-- Splitting a text at one of its separators: the pieces of the left part
followed by the pieces of the right part. -/
theorem split_append_sep (sep : Char) (s t : JSString) :
    split sep (s ++ sep :: t) = split sep s ++ split sep t := by
  induction s with
  | nil => simp [split]
  | cons c cs ih =>
    by_cases h : c = sep
    · subst h
      simp [split_cons_sep, ih]
    · rw [List.cons_append, split_cons_ne sep c _ h, split_cons_ne sep c _ h, ih]
      cases hs : split sep cs with
      | nil => exact absurd hs (split_ne_nil sep cs)
      | cons p ps => simp

theorem split_of_not_mem (sep : Char) (s : JSString) (h : sep ∉ s) : split sep s = [s] := by
  induction s with
  | nil => rfl
  | cons c cs ih =>
    have hc : c ≠ sep := fun e => h (by simp [e])
    have hcs : sep ∉ cs := fun e => h (by simp [e])
    rw [split_cons_ne sep c cs hc, ih hcs]
    rfl

theorem split_line (sep : Char) (l t : JSString) (h : sep ∉ l) :
    split sep (l ++ sep :: t) = l :: split sep t := by
  rw [split_append_sep, split_of_not_mem sep l h]
  rfl

/-! ## Lemmas on the reader's loop -/

theorem readQuestionsFromFile_eq (text : JSString) :
    readQuestionsFromFile text = parseFrom [] text := rfl

theorem readStep_nil (st : ReadState) :
    readStep st [] = { questionArr := st.questionArr ++ [st.tempArr], tempArr := [] } := by
  simp [readStep]

theorem readStep_ne (st : ReadState) (elem : JSString) (h : elem ≠ []) :
    readStep st elem = { st with tempArr := st.tempArr ++ [elem] } := by
  simp [readStep, h]

/-- What is already in `questionArr` is carried along unchanged by the loop. -/
theorem foldl_readStep_questionArr (textArray : List JSString) (qa : List (List JSString))
    (ta : List JSString) :
    textArray.foldl readStep { questionArr := qa, tempArr := ta } =
      { questionArr :=
          qa ++ (textArray.foldl readStep { questionArr := [], tempArr := ta }).questionArr,
        tempArr := (textArray.foldl readStep { questionArr := [], tempArr := ta }).tempArr } := by
  induction textArray generalizing qa ta with
  | nil => simp
  | cons l ls ih =>
    by_cases h : l = []
    · subst h
      simp only [List.foldl_cons, readStep_nil, List.nil_append]
      rw [ih (qa ++ [ta]) [], ih [ta] []]
      simp
    · simp only [List.foldl_cons, readStep_ne _ _ h]
      exact ih qa (ta ++ [l])

theorem readFrom_nil (ta : List JSString) :
    readFrom ta [] = [ta].filter (fun elem => elem.length != 0) := by
  simp [readFrom, readFinish]

theorem readFrom_cons_ne (ta : List JSString) (l : JSString) (ls : List JSString)
    (h : l ≠ []) : readFrom ta (l :: ls) = readFrom (ta ++ [l]) ls := by
  simp [readFrom, readStep_ne _ _ h]

theorem readFrom_cons_nil (ta : List JSString) (ls : List JSString) :
    readFrom ta ([] :: ls) = [ta].filter (fun elem => elem.length != 0) ++ readFrom [] ls := by
  simp only [readFrom, List.foldl_cons, readStep_nil, List.nil_append]
  rw [foldl_readStep_questionArr ls [ta] []]
  simp only [readFinish, List.append_assoc, List.filter_append]

theorem parseFrom_nil (ta : List JSString) :
    parseFrom ta [] = [ta].filter (fun elem => elem.length != 0) := by
  simp [parseFrom, split, readFrom_cons_nil, readFrom_nil]

theorem parseFrom_newline (ta : List JSString) (t : JSString) :
    parseFrom ta ('\n' :: t) =
      [ta].filter (fun elem => elem.length != 0) ++ parseFrom [] t := by
  simp [parseFrom, split_cons_sep, readFrom_cons_nil]

theorem parseFrom_line (ta : List JSString) (l t : JSString) (hne : l ≠ [])
    (hnl : '\n' ∉ l) : parseFrom ta (l ++ '\n' :: t) = parseFrom (ta ++ [l]) t := by
  simp [parseFrom, split_line _ l t hnl, readFrom_cons_ne _ _ _ hne]

/-- A newline added at the end of a text does not change what is read. -/
theorem parseFrom_append_newline (ta : List JSString) (text : JSString) :
    parseFrom ta (text ++ ['\n']) = parseFrom ta text := by
  have e : split '\n' ([] : JSString) = [[]] := rfl
  simp only [parseFrom, readFrom, split_append_sep, e, List.foldl_append, List.foldl_cons,
    List.foldl_nil, readStep_nil, readFinish, List.filter_append]
  simp

theorem parseFrom_groupLines (ta g : List JSString) (t : JSString)
    (hg : ∀ q ∈ g, q ≠ [] ∧ '\n' ∉ q) :
    parseFrom ta (groupLines g ++ t) = parseFrom (ta ++ g) t := by
  induction g generalizing ta with
  | nil => simp [groupLines]
  | cons q qs ih =>
    have hq := hg q (by simp)
    have hqs : ∀ r ∈ qs, r ≠ [] ∧ '\n' ∉ r := fun r hr => hg r (by simp [hr])
    have e : groupLines (q :: qs) ++ t = q ++ '\n' :: (groupLines qs ++ t) := by
      simp [groupLines]
    rw [e, parseFrom_line ta q _ hq.1 hq.2, ih (ta ++ [q]) hqs]
    simp

theorem parseFrom_blankLines_nil (n : Nat) (t : JSString) :
    parseFrom [] (blankLines n ++ t) = parseFrom [] t := by
  induction n with
  | zero => simp [blankLines]
  | succ n ih =>
    have e : blankLines (n + 1) ++ t = '\n' :: (blankLines n ++ t) := by
      simp [blankLines, List.replicate_succ]
    rw [e, parseFrom_newline, ih]
    simp

theorem parseFrom_blankLines_succ (ta : List JSString) (n : Nat) (t : JSString) :
    parseFrom ta (blankLines (n + 1) ++ t) =
      [ta].filter (fun elem => elem.length != 0) ++ parseFrom [] t := by
  have e : blankLines (n + 1) ++ t = '\n' :: (blankLines n ++ t) := by
    simp [blankLines, List.replicate_succ]
  rw [e, parseFrom_newline, parseFrom_blankLines_nil]

theorem filter_singleton_ne (g : List JSString) (h : g ≠ []) :
    [g].filter (fun elem => elem.length != 0) = [g] := by
  cases g with
  | nil => exact absurd rfl h
  | cons q qs => simp

/-- The reader on the groups part of a laid-out text. -/
theorem parseFrom_layout (gs : List (List JSString × Nat))
    (hg : ∀ p ∈ gs, WellFormedGroup p.1) (hsep : ∀ p ∈ gs.dropLast, 1 ≤ p.2) :
    parseFrom [] (gs.map (fun p => groupLines p.1 ++ blankLines p.2)).flatten =
      gs.map Prod.fst := by
  induction gs with
  | nil => simp [parseFrom_nil]
  | cons p ps ih =>
    obtain ⟨hne, hq⟩ := hg p (by simp)
    have hps : ∀ r ∈ ps, WellFormedGroup r.1 := fun r hr => hg r (by simp [hr])
    simp only [List.map_cons, List.flatten_cons, List.append_assoc]
    rw [parseFrom_groupLines [] p.1 _ hq, List.nil_append]
    cases hps' : ps with
    | nil =>
      simp only [List.map_nil, List.flatten_nil, List.append_nil]
      cases p.2 with
      | zero => simp [blankLines, parseFrom_nil, filter_singleton_ne _ hne]
      | succ n =>
        have := parseFrom_blankLines_succ p.1 n []
        simp only [List.append_nil] at this
        rw [this, parseFrom_nil, filter_singleton_ne _ hne]
        simp
    | cons r rs =>
      subst hps'
      have h1 : 1 ≤ p.2 := hsep p (by simp [List.dropLast])
      have hsep' : ∀ r' ∈ (r :: rs).dropLast, 1 ≤ r'.2 := fun r' hr' =>
        hsep r' (by rw [List.dropLast_cons_of_ne_nil (by simp)]; simp [hr'])
      obtain ⟨n, hn⟩ : ∃ n, p.2 = n + 1 := ⟨p.2 - 1, by omega⟩
      rw [hn, parseFrom_blankLines_succ, filter_singleton_ne _ hne, ih hps hsep']
      simp

/-! ## Lemmas on the writer -/

theorem foldl_write_written (pageArr : List JSString) (file : WriteStream) :
    (pageArr.foldl (fun file question => file.write (question ++ ['\n'])) file) =
      { file with written := file.written ++ groupLines pageArr } := by
  induction pageArr generalizing file with
  | nil => simp [groupLines]
  | cons q qs ih =>
    simp only [List.foldl_cons]
    rw [ih]
    simp [WriteStream.write, groupLines]

theorem foldl_group_written (arr : List (List JSString)) (file : WriteStream) :
    (arr.foldl (fun file pageArr =>
      let file := pageArr.foldl (fun file question => file.write (question ++ ['\n'])) file
      file.write ['\n']) file) =
      { file with written := file.written ++ collectionText arr } := by
  induction arr generalizing file with
  | nil => simp [collectionText]
  | cons g gs ih =>
    simp only [List.foldl_cons]
    rw [ih, foldl_write_written]
    simp [WriteStream.write, collectionText]

/-- What `saveQuestionsToFile` writes is the text of the collection. -/
theorem saveQuestionsToFile_written (arr : List (List JSString)) :
    (saveQuestionsToFile arr).written = collectionText arr := by
  simp [saveQuestionsToFile, foldl_group_written, WriteStream.endStream, createWriteStream]

theorem collectionText_cons (g : List JSString) (arr : List (List JSString)) :
    collectionText (g :: arr) = groupLines g ++ '\n' :: collectionText arr := by
  simp [collectionText]

theorem collectionText_append (xs ys : List (List JSString)) :
    collectionText (xs ++ ys) = collectionText xs ++ collectionText ys := by
  simp [collectionText]

/-- Reading back the text of a collection of well-formed groups. -/
theorem parseFrom_collectionText (x : List (List JSString))
    (hx : ∀ g ∈ x, WellFormedGroup g) : parseFrom [] (collectionText x) = x := by
  induction x with
  | nil => simp [collectionText, parseFrom_nil]
  | cons g gs ih =>
    obtain ⟨hne, hq⟩ := hx g (by simp)
    have hgs : ∀ r ∈ gs, WellFormedGroup r := fun r hr => hx r (by simp [hr])
    rw [collectionText_cons, parseFrom_groupLines [] g _ hq, List.nil_append,
      parseFrom_newline, filter_singleton_ne _ hne, ih hgs]
    simp

theorem split_groupLines_end (g : List JSString) :
    ∃ M, split '\n' (groupLines g) = M ++ [[]] := by
  induction g with
  | nil => exact ⟨[], rfl⟩
  | cons q qs ih =>
    obtain ⟨M, hM⟩ := ih
    refine ⟨split '\n' q ++ M, ?_⟩
    have e : groupLines (q :: qs) = q ++ '\n' :: groupLines qs := by simp [groupLines]
    rw [e, split_append_sep, hM, List.append_assoc]

/-- Whatever the strings of a group are, the reader is back with an empty
`tempArr` after the group's text, and what it has collected depends on the
group alone. -/
theorem parseFrom_group_any (g : List JSString) :
    ∃ F, ∀ t, parseFrom [] (groupLines g ++ '\n' :: t) = F ++ parseFrom [] t := by
  obtain ⟨M, hM⟩ := split_groupLines_end g
  refine ⟨((M.foldl readStep { questionArr := [], tempArr := [] }).questionArr ++
    [(M.foldl readStep { questionArr := [], tempArr := [] }).tempArr]).filter
      (fun elem => elem.length != 0), fun t => ?_⟩
  simp only [parseFrom, readFrom, split_append_sep, hM, List.foldl_append, List.foldl_cons,
    List.foldl_nil, readStep_nil]
  rw [foldl_readStep_questionArr]
  simp only [readFinish, List.append_assoc, List.filter_append]

/-- Empty groups of the collection written do not show when the text is read
back. -/
theorem parseFrom_collectionText_filter (x : List (List JSString)) :
    parseFrom [] (collectionText x) =
      parseFrom [] (collectionText (x.filter (fun g => g.length != 0))) := by
  induction x with
  | nil => rfl
  | cons g gs ih =>
    cases g with
    | nil =>
      have e : collectionText ([] :: gs) = '\n' :: collectionText gs := by
        simp [collectionText, groupLines]
      rw [e, parseFrom_newline, ih]
      simp
    | cons q qs =>
      obtain ⟨F, hF⟩ := parseFrom_group_any (q :: qs)
      have e : List.filter (fun g => g.length != 0) ((q :: qs) :: gs) =
          (q :: qs) :: List.filter (fun g => g.length != 0) gs := by simp
      rw [e, collectionText_cons, collectionText_cons, hF, hF, ih]

/-! ## The claims -/

/-- C1 (as stated, refuted): the collection made of one group holding the
empty string has no empty group and no string with a newline, yet the text
written for it reads back as the empty collection. -/
theorem roundtrip_fails_on_empty_question :
    ¬ ∀ x : List (List JSString), (∀ g ∈ x, g ≠ []) → (∀ g ∈ x, ∀ q ∈ g, '\n' ∉ q) →
      readQuestionsFromFile (saveQuestionsToFile x).written = x := by
  intro h
  have h1 := h [[[]]] (by decide) (by decide)
  revert h1
  decide

/-- C1 (amended): for every collection without empty group in which every
question is a non-empty string without newline, reading the text that the
writer produces gives the collection back, in the same order. -/
theorem roundtrip_save_read (x : List (List JSString)) (hx : ∀ g ∈ x, WellFormedGroup g) :
    readQuestionsFromFile (saveQuestionsToFile x).written = x := by
  rw [saveQuestionsToFile_written, readQuestionsFromFile_eq]
  exact parseFrom_collectionText x hx

theorem roundtrip_save_read_witness :
    (∀ g ∈ [["What is X?".toList, "Why is Y?".toList], ["Who?".toList]], WellFormedGroup g) ∧
    readQuestionsFromFile
      (saveQuestionsToFile [["What is X?".toList, "Why is Y?".toList], ["Who?".toList]]).written =
      [["What is X?".toList, "Why is Y?".toList], ["Who?".toList]] :=
  ⟨by decide, roundtrip_save_read _ (by decide)⟩

/-- C5: a text made of any number of leading blank lines, then the groups
`g1 .. gk` (each non-empty, of non-empty strings without newline) one string
per line, with at least one blank line between consecutive groups and any
number of blank lines after the last, is parsed to exactly `[g1, .., gk]`;
the same holds when the newline that ends the text is left out. -/
theorem readQuestionsFromFile_grouping (lead : Nat) (gs : List (List JSString × Nat))
    (hg : ∀ p ∈ gs, WellFormedGroup p.1) (hsep : ∀ p ∈ gs.dropLast, 1 ≤ p.2) :
    readQuestionsFromFile (layoutText lead gs) = gs.map Prod.fst ∧
    ∀ text : JSString, layoutText lead gs = text ++ ['\n'] →
      readQuestionsFromFile text = gs.map Prod.fst := by
  have h : readQuestionsFromFile (layoutText lead gs) = gs.map Prod.fst := by
    rw [readQuestionsFromFile_eq, layoutText, parseFrom_blankLines_nil]
    exact parseFrom_layout gs hg hsep
  refine ⟨h, fun text htext => ?_⟩
  rw [htext, readQuestionsFromFile_eq, parseFrom_append_newline] at h
  exact h

theorem readQuestionsFromFile_grouping_witness :
    (layoutText 0 [(["a".toList, "b".toList], 2), (["c".toList], 0)] = "a\nb\n\n\nc\n".toList ∧
      readQuestionsFromFile "a\nb\n\n\nc\n".toList = [["a".toList, "b".toList], ["c".toList]]) ∧
    (layoutText 0 [(["a".toList], 1), (["b".toList], 0)] = "a\n\nb\n".toList ∧
      readQuestionsFromFile "a\n\nb\n".toList = [["a".toList], ["b".toList]] ∧
      readQuestionsFromFile "a\n\nb".toList = [["a".toList], ["b".toList]]) :=
  ⟨⟨by decide,
      (readQuestionsFromFile_grouping 0 [(["a".toList, "b".toList], 2), (["c".toList], 0)]
        (by decide) (by decide)).1⟩,
    ⟨by decide,
      (readQuestionsFromFile_grouping 0 [(["a".toList], 1), (["b".toList], 0)]
        (by decide) (by decide)).1,
      (readQuestionsFromFile_grouping 0 [(["a".toList], 1), (["b".toList], 0)]
        (by decide) (by decide)).2 "a\n\nb".toList (by decide)⟩⟩

/-- C8: for every input text, every group of the collection that
`readQuestionsFromFile` returns holds at least one string. -/
theorem readQuestionsFromFile_no_empty_group (text : JSString) (g : List JSString)
    (hg : g ∈ readQuestionsFromFile text) : 1 ≤ g.length := by
  simp only [readQuestionsFromFile, List.mem_filter] at hg
  have h := hg.2
  simp only [bne_iff_ne, ne_eq] at h
  omega

theorem readQuestionsFromFile_no_empty_group_witness :
    ["a".toList] ∈ readQuestionsFromFile "\n\na\n\n\n".toList ∧ 1 ≤ ["a".toList].length :=
  ⟨by decide, readQuestionsFromFile_no_empty_group "\n\na\n\n\n".toList ["a".toList] (by decide)⟩

/-- C9 (as stated, refuted): the text written for a collection with an empty
group differs from the text written for the collection without it. -/
theorem saveQuestionsToFile_keeps_empty_group :
    (saveQuestionsToFile [["a".toList], [], ["b".toList]]).written = "a\n\n\nb\n\n".toList ∧
    (saveQuestionsToFile
      ([["a".toList], [], ["b".toList]].filter (fun g => g.length != 0))).written =
      "a\n\nb\n\n".toList ∧
    (saveQuestionsToFile [["a".toList], [], ["b".toList]]).written ≠
      (saveQuestionsToFile
        ([["a".toList], [], ["b".toList]].filter (fun g => g.length != 0))).written := by
  decide

/-- C9 (amended): an empty group contributes exactly one newline to the text
written, and reading the text written for a collection gives the same result
as reading the text written for the collection without its empty groups. -/
theorem saveQuestionsToFile_empty_group :
    (∀ xs ys : List (List JSString),
      (saveQuestionsToFile (xs ++ [] :: ys)).written =
        (saveQuestionsToFile xs).written ++ '\n' :: (saveQuestionsToFile ys).written) ∧
    (∀ x : List (List JSString),
      readQuestionsFromFile (saveQuestionsToFile x).written =
        readQuestionsFromFile
          (saveQuestionsToFile (x.filter (fun g => g.length != 0))).written) := by
  refine ⟨fun xs ys => ?_, fun x => ?_⟩
  · simp [saveQuestionsToFile_written, collectionText, groupLines]
  · simp only [saveQuestionsToFile_written, readQuestionsFromFile_eq]
    exact parseFrom_collectionText_filter x

/-- C10: the characters written are, for each group in order, each question
followed by one newline and then one more newline, and the stream is ended;
when no question holds a newline, the lines of the text are the questions of
each group in order, each group followed by exactly one empty line. -/
theorem saveQuestionsToFile_format (arr : List (List JSString)) :
    (saveQuestionsToFile arr).written =
      (arr.map (fun pageArr =>
        (pageArr.map (fun question => question ++ ['\n'])).flatten ++ ['\n'])).flatten ∧
    (saveQuestionsToFile arr).ended = true ∧
    ((∀ g ∈ arr, ∀ q ∈ g, '\n' ∉ q) →
      split '\n' (saveQuestionsToFile arr).written =
        (arr.map (fun pageArr => pageArr ++ [[]])).flatten ++ [[]]) := by
  refine ⟨saveQuestionsToFile_written arr, rfl, fun h => ?_⟩
  rw [saveQuestionsToFile_written]
  induction arr with
  | nil => rfl
  | cons g gs ih =>
    have hgs : ∀ r ∈ gs, ∀ q ∈ r, '\n' ∉ q := fun r hr => h r (by simp [hr])
    have hg : ∀ q ∈ g, '\n' ∉ q := h g (by simp)
    rw [collectionText_cons]
    clear h
    induction g with
    | nil => simp [groupLines, split_cons_sep, ih hgs]
    | cons q qs ihq =>
      have e : groupLines (q :: qs) ++ '\n' :: collectionText gs =
          q ++ '\n' :: (groupLines qs ++ '\n' :: collectionText gs) := by simp [groupLines]
      rw [e, split_line _ q _ (hg q (by simp)), ihq (fun r hr => hg r (by simp [hr]))]
      simp

theorem saveQuestionsToFile_format_witness :
    (∀ g ∈ [["a".toList, "b".toList], ["c".toList]], ∀ q ∈ g, '\n' ∉ q) ∧
    split '\n' (saveQuestionsToFile [["a".toList, "b".toList], ["c".toList]]).written =
      ["a".toList, "b".toList, [], "c".toList, [], []] :=
  ⟨by decide, (saveQuestionsToFile_format [["a".toList, "b".toList], ["c".toList]]).2.2 (by decide)⟩

/-! ### `getTextFromPDF` -/

theorem getTextFromPDF_loop_ok (doc : PDFDocument) (frags : Nat → List JSString)
    (remaining i : Nat) (pageTexts : List JSString)
    (h : ∀ j, i ≤ j → j < i + remaining →
      doc.getPage j = .ok { getTextContent := .ok { items := (frags j).map TextItem.mk } }) :
    getTextFromPDF.loop doc remaining i pageTexts =
      .ok (pageTexts ++
        (List.range remaining).map (fun k => join defaultJoinSeparator (frags (i + k)))) := by
  induction remaining generalizing i pageTexts with
  | zero => simp [getTextFromPDF.loop]
  | succ n ih =>
    have hi := h i (Nat.le_refl i) (by omega)
    have hrest : ∀ j, i + 1 ≤ j → j < i + 1 + n →
        doc.getPage j = .ok { getTextContent := .ok { items := (frags j).map TextItem.mk } } :=
      fun j h1 h2 => h j (by omega) (by omega)
    have hstep : getTextFromPDF.loop doc (n + 1) i pageTexts =
        getTextFromPDF.loop doc n (i + 1)
          (pageTexts ++ [join defaultJoinSeparator (frags i)]) := by
      rw [getTextFromPDF.loop, hi]
      simp [bind, Except.bind, Function.comp_def]
    rw [hstep, ih (i + 1) _ hrest, List.range_succ_eq_map]
    simp [Function.comp_def, Nat.add_assoc, Nat.add_comm 1]

/-- C2 (as stated, refuted): on a document of one page with the two fragments
`a` and `b` the result is `["a,b"]`, not the concatenation `["ab"]`. -/
theorem getTextFromPDF_inserts_comma :
    getTextFromPDF (fun _ => .ok (docOfPages [["a".toList, "b".toList]])) "doc.pdf".toList =
      .ok ["a,b".toList] ∧
    getTextFromPDF (fun _ => .ok (docOfPages [["a".toList, "b".toList]])) "doc.pdf".toList ≠
      .ok ([["a".toList, "b".toList]].map List.flatten) := by
  decide

/-- C2 (amended): for every document that loads and whose page `i` yields the
fragments `frags i` (for `1 ≤ i ≤ numPages`), the string at position `k` of the
result is the fragments of page `k + 1` in document order, joined with one
comma between consecutive fragments. -/
theorem getTextFromPDF_page_content (getDocument : JSString → Except JSError PDFDocument)
    (path : JSString) (doc : PDFDocument) (frags : Nat → List JSString)
    (hdoc : getDocument path = .ok doc)
    (hpages : ∀ i, 1 ≤ i → i ≤ doc.numPages →
      doc.getPage i = .ok { getTextContent := .ok { items := (frags i).map TextItem.mk } }) :
    getTextFromPDF getDocument path =
      .ok ((List.range doc.numPages).map (fun k => join [','] (frags (k + 1)))) := by
  have h := getTextFromPDF_loop_ok doc frags doc.numPages 1 []
    (fun j h1 h2 => hpages j h1 (by omega))
  simp only [getTextFromPDF, hdoc, bind, Except.bind, h, List.nil_append]
  simp [defaultJoinSeparator, Nat.add_comm 1]

theorem getTextFromPDF_page_content_witness :
    getTextFromPDF (fun _ => .ok (docOfPages [["a".toList, "b".toList], ["c".toList]]))
        "doc.pdf".toList = .ok ["a,b".toList, "c".toList] :=
  (getTextFromPDF_page_content
    (fun _ => .ok (docOfPages [["a".toList, "b".toList], ["c".toList]]))
    "doc.pdf".toList (docOfPages [["a".toList, "b".toList], ["c".toList]])
    (fun i => [["a".toList, "b".toList], ["c".toList]].getD (i - 1) []) rfl
    (fun i h1 h2 => by
      have h3 : i ≤ 2 := h2
      simp [docOfPages, h1, h3])).trans (by decide)

/-! ### `structureResponse` -/

/-- C3 (failing input): on the response `"?"` the question-mark split leaves
no segment, `tempArr[0]` is `undefined`, and `startsWith` throws. -/
theorem structureResponse_throws_on_question_mark :
    structureResponse "?".toList = .error .typeError := by
  decide

theorem structureResponse_of_lines (response : JSString)
    (h : 1 < (nonEmptyLines response).length) :
    structureResponse response = .ok (nonEmptyLines response) := by
  have hne : ¬ ((nonEmptyLines response).length = 1) := by omega
  simp only [nonEmptyLines] at hne
  simp [structureResponse, nonEmptyLines, hne]

theorem split_join_newline (qs : List JSString) (hne : qs ≠ []) (hq : ∀ q ∈ qs, '\n' ∉ q) :
    split '\n' (join ['\n'] qs) = qs := by
  induction qs with
  | nil => exact absurd rfl hne
  | cons q qs ih =>
    cases qs with
    | nil => simpa [join] using split_of_not_mem '\n' q (hq q (by simp))
    | cons r rs =>
      have e : join ['\n'] (q :: r :: rs) = q ++ '\n' :: join ['\n'] (r :: rs) := by
        simp [join]
      rw [e, split_line _ q _ (hq q (by simp)),
        ih (by simp) (fun s hs => hq s (List.mem_cons_of_mem _ hs))]

/-- C7: when the split of the response on newlines leaves more than one
non-empty piece, the result is exactly those pieces, in order and unmodified;
in particular, for a list of at least two non-empty strings without newline,
`structureResponse` of the list joined by newlines returns the list. -/
theorem structureResponse_multiline :
    (∀ response : JSString, 1 < (nonEmptyLines response).length →
      structureResponse response =
        .ok ((split '\n' response).filter (fun question => question != []))) ∧
    (∀ qs : List JSString, 2 ≤ qs.length → (∀ q ∈ qs, q ≠ [] ∧ '\n' ∉ q) →
      structureResponse (join ['\n'] qs) = .ok qs) := by
  refine ⟨fun response h => structureResponse_of_lines response h, fun qs hlen hq => ?_⟩
  have hne : qs ≠ [] := by
    intro e
    simp [e] at hlen
  have hsplit := split_join_newline qs hne (fun q h => (hq q h).2)
  have hfilter : nonEmptyLines (join ['\n'] qs) = qs := by
    rw [nonEmptyLines, hsplit, List.filter_eq_self]
    intro q h
    simpa using (hq q h).1
  have h := structureResponse_of_lines (join ['\n'] qs) (by rw [hfilter]; omega)
  rw [h, hfilter]

theorem structureResponse_multiline_witness :
    structureResponse "What is X?\nWhy is Y?".toList =
        .ok ["What is X?".toList, "Why is Y?".toList] ∧
    structureResponse " a \n\nQuestions: b?\n".toList =
        .ok [" a ".toList, "Questions: b?".toList] :=
  ⟨structureResponse_multiline.2 ["What is X?".toList, "Why is Y?".toList]
      (by decide) (by decide),
    structureResponse_multiline.1 " a \n\nQuestions: b?\n".toList (by decide)⟩

/-! ### `readQuestionsFromFile` on CRLF input -/

/-- C4 (as stated, refuted): on a text with CRLF line ends every string parsed
keeps its carriage return, and the line made of CRLF alone is kept as the
string `"\r"` instead of separating two groups. -/
theorem readQuestionsFromFile_keeps_carriage_return :
    readQuestionsFromFile "a\r\n\r\nb\r\n".toList =
      [["a\r".toList, "\r".toList, "b\r".toList]] ∧
    ¬ ∀ g ∈ readQuestionsFromFile "a\r\n\r\nb\r\n".toList, ∀ q ∈ g, '\r' ∉ q := by
  decide

/-- C4 (amended): the reader splits on the newline alone.  For a text whose
lines (strings without newline, possibly empty) are each terminated by CRLF,
the parsed collection is one group holding every line with its carriage
return kept, the line made of CRLF alone included (and no group when there is
no line). -/
theorem readQuestionsFromFile_crlf (ls : List JSString) (hls : ∀ l ∈ ls, '\n' ∉ l) :
    readQuestionsFromFile (crlfText ls) =
      if ls = [] then [] else [ls.map (fun l => l ++ ['\r'])] := by
  have e : crlfText ls = groupLines (ls.map (fun l => l ++ ['\r'])) ++ [] := by
    simp [crlfText, groupLines, Function.comp_def]
  have hg : ∀ q ∈ ls.map (fun l => l ++ ['\r']), q ≠ [] ∧ '\n' ∉ q := by
    intro q hq
    obtain ⟨l, hl, rfl⟩ := List.mem_map.1 hq
    refine ⟨by simp, ?_⟩
    have := hls l hl
    simp [this]
  rw [readQuestionsFromFile_eq, e, parseFrom_groupLines [] _ [] hg, parseFrom_nil]
  cases ls with
  | nil => simp
  | cons l ls => simp

theorem readQuestionsFromFile_crlf_witness :
    (∀ l ∈ ["a".toList, [], "b".toList], '\n' ∉ l) ∧
    crlfText ["a".toList, [], "b".toList] = "a\r\n\r\nb\r\n".toList ∧
    readQuestionsFromFile (crlfText ["a".toList, [], "b".toList]) =
      [["a\r".toList, "\r".toList, "b\r".toList]] :=
  ⟨by decide, by decide, readQuestionsFromFile_crlf ["a".toList, [], "b".toList] (by decide)⟩

/-! ### `structureResponse`, the run-on case -/

theorem trimStart_eq_self (b : JSString)
    (h : b.head?.all (fun c => !isWhiteSpace c) = true) : trimStart b = b := by
  cases b with
  | nil => rfl
  | cons c cs =>
    have hc : isWhiteSpace c = false := by simpa using h
    simp [trimStart, List.dropWhile, hc]

theorem trimEnd_eq_self (b : JSString)
    (h : b.getLast?.all (fun c => !isWhiteSpace c) = true) : trimEnd b = b := by
  have h1 : b.reverse.head?.all (fun c => !isWhiteSpace c) = true := by
    rw [List.head?_reverse]
    exact h
  have h2 := trimStart_eq_self b.reverse h1
  unfold trimStart at h2
  rw [trimEnd, h2, List.reverse_reverse]

theorem trim_eq_self (b : JSString) (h : NoOuterWhiteSpace b) : trim b = b := by
  rw [trim, trimStart_eq_self b h.1, trimEnd_eq_self b h.2]

theorem trim_space_cons (b : JSString) : trim (' ' :: b) = trim b := by
  have h : isWhiteSpace ' ' = true := by decide
  simp [trim, trimStart, List.dropWhile, h]

theorem not_mem_join (c : Char) (sep : JSString) (bs : List JSString) (hsep : c ∉ sep)
    (hbs : ∀ b ∈ bs, c ∉ b) : c ∉ join sep bs := by
  induction bs with
  | nil => simp [join]
  | cons b rest ih =>
    cases rest with
    | nil => simpa [join] using hbs b (by simp)
    | cons r rs =>
      have h1 := hbs b (by simp)
      have h2 := ih (fun x hx => hbs x (List.mem_cons_of_mem _ hx))
      simp [join, h1, h2, hsep]

theorem join_question_tail (b : JSString) (rest : List JSString) :
    join ['?', ' '] (b :: rest) ++ ['?'] = b ++ '?' :: tailText rest := by
  induction rest generalizing b with
  | nil => simp [join, tailText]
  | cons r rs ih =>
    have e : join ['?', ' '] (b :: r :: rs) = b ++ ['?', ' '] ++ join ['?', ' '] (r :: rs) := rfl
    rw [e, List.append_assoc, List.append_assoc, ih r]
    simp [tailText]

theorem split_tailText (rest : List JSString) (h : ∀ b ∈ rest, '?' ∉ b) :
    split '?' (tailText rest) = rest.map (fun b => ' ' :: b) ++ [[]] := by
  induction rest with
  | nil => rfl
  | cons r rs ih =>
    have e : tailText (r :: rs) = (' ' :: r) ++ '?' :: tailText rs := by simp [tailText]
    have hr : '?' ∉ ' ' :: r := by
      have := h r (by simp)
      simp [this]
    rw [e, split_line _ _ _ hr, ih (fun b hb => h b (List.mem_cons_of_mem _ hb))]
    simp

/-- The run-on branch of `structureResponse`, once the two splits are known. -/
theorem structureResponse_of_segments (response line first : JSString) (segs : List JSString)
    (h1 : (split '\n' response).filter (fun question => question != []) = [line])
    (h2 : (split '?' line).filter (fun question => question != []) = first :: segs)
    (h3 : startsWith first questionsPrefix = true) :
    structureResponse response =
      .ok (((slice first 11 :: segs).map (fun elem => trim elem)).map
        (fun elem => elem ++ ['?'])) := by
  simp [structureResponse, h1, h2, h3]

/-- C6: for `n ≥ 1` question bodies that are non-empty, hold no question mark
and no newline, and have no leading or trailing whitespace,
`structureResponse("Questions: " + b1 + "? " + ... + bn + "?")` returns
`[b1 + "?", ..., bn + "?"]`. -/
theorem structureResponse_run_on (bs : List JSString) (hne : bs ≠ [])
    (hbs : ∀ b ∈ bs, b ≠ [] ∧ '?' ∉ b ∧ '\n' ∉ b ∧ NoOuterWhiteSpace b) :
    structureResponse (runOnResponse bs) = .ok (bs.map (fun b => b ++ ['?'])) := by
  cases bs with
  | nil => exact absurd rfl hne
  | cons b rest =>
    have hb := hbs b (by simp)
    have hrest : ∀ r ∈ rest, r ≠ [] ∧ '?' ∉ r ∧ '\n' ∉ r ∧ NoOuterWhiteSpace r :=
      fun r hr => hbs r (List.mem_cons_of_mem _ hr)
    -- the newline split leaves the whole response
    have hnl : '\n' ∉ runOnResponse (b :: rest) := by
      have hj := not_mem_join '\n' ['?', ' '] (b :: rest) (by decide)
        (fun x hx => (hbs x hx).2.2.1)
      have hp : '\n' ∉ questionsPrefix := by decide
      simp [runOnResponse, hj, hp]
    have hnonempty : runOnResponse (b :: rest) ≠ [] := by
      simp [runOnResponse, questionsPrefix]
    have h1 : (split '\n' (runOnResponse (b :: rest))).filter (fun question => question != []) =
        [runOnResponse (b :: rest)] := by
      rw [split_of_not_mem _ _ hnl]
      simp [hnonempty]
    -- the question-mark split
    have e : runOnResponse (b :: rest) = (questionsPrefix ++ b) ++ '?' :: tailText rest := by
      rw [runOnResponse, List.append_assoc, join_question_tail, List.append_assoc]
    have hq : '?' ∉ questionsPrefix ++ b := by
      have hp : '?' ∉ questionsPrefix := by decide
      simp [hp, hb.2.1]
    have h2 : (split '?' (runOnResponse (b :: rest))).filter (fun question => question != []) =
        (questionsPrefix ++ b) :: rest.map (fun r => ' ' :: r) := by
      rw [e, split_line _ _ _ hq, split_tailText rest (fun r hr => (hrest r hr).2.1)]
      have hfirst : questionsPrefix ++ b ≠ [] := by simp [questionsPrefix]
      have hsegs : (rest.map (fun r => ' ' :: r)).filter (fun question => question != []) =
          rest.map (fun r => ' ' :: r) := by
        rw [List.filter_eq_self]
        intro q hq
        obtain ⟨r, _, rfl⟩ := List.mem_map.1 hq
        simp
      simp [List.filter_cons, hfirst, List.filter_append, hsegs]
    have h3 : startsWith (questionsPrefix ++ b) questionsPrefix = true := by
      simp [startsWith]
    rw [structureResponse_of_segments _ _ _ _ h1 h2 h3]
    have hslice : slice (questionsPrefix ++ b) 11 = b := by
      simp [slice, questionsPrefix]
    have htrim : (rest.map (fun r => ' ' :: r)).map (fun elem => trim elem) = rest := by
      rw [List.map_map]
      conv_rhs => rw [← List.map_id rest]
      apply List.map_congr_left
      intro r hr
      simp [trim_space_cons, trim_eq_self r (hrest r hr).2.2.2]
    rw [hslice, List.map_cons, htrim, trim_eq_self b hb.2.2.2]

theorem structureResponse_run_on_witness :
    runOnResponse ["What is X".toList, "Why is Y".toList] =
      "Questions: What is X? Why is Y?".toList ∧
    structureResponse "Questions: What is X? Why is Y?".toList =
      .ok ["What is X?".toList, "Why is Y?".toList] :=
  ⟨by decide,
    structureResponse_run_on ["What is X".toList, "Why is Y".toList] (by decide) (by decide)⟩

/-! ### What the reader keeps -/

theorem flatten_filter_length (L : List (List JSString)) :
    (L.filter (fun elem => elem.length != 0)).flatten = L.flatten := by
  induction L with
  | nil => rfl
  | cons g gs ih =>
    cases g with
    | nil => simpa using ih
    | cons q qs => simp [List.filter_cons, ih]

/-- The loop of the reader moves the non-empty lines, in order, into its two
arrays and drops nothing else. -/
theorem foldl_readStep_flatten (textArray : List JSString) (st : ReadState) :
    (textArray.foldl readStep st).questionArr.flatten ++ (textArray.foldl readStep st).tempArr =
      st.questionArr.flatten ++ st.tempArr ++
        textArray.filter (fun question => question != []) := by
  induction textArray generalizing st with
  | nil => simp
  | cons l ls ih =>
    by_cases h : l = []
    · subst h
      rw [List.foldl_cons, ih, readStep_nil]
      simp
    · rw [List.foldl_cons, ih, readStep_ne _ _ h]
      simp [List.filter_cons, h]

theorem readQuestionsFromFile_flatten (text : JSString) :
    (readQuestionsFromFile text).flatten = nonEmptyLines text := by
  have h := foldl_readStep_flatten (split '\n' text) { questionArr := [], tempArr := [] }
  simp only [List.flatten_nil, List.nil_append] at h
  simp only [readQuestionsFromFile, flatten_filter_length, List.flatten_append,
    List.flatten_cons, List.flatten_nil, List.append_nil, nonEmptyLines]
  exact h

theorem not_mem_of_mem_split (sep : Char) (s p : JSString) (hp : p ∈ split sep s) :
    sep ∉ p := by
  induction s generalizing p with
  | nil =>
    simp only [split, List.mem_singleton] at hp
    simp [hp]
  | cons c cs ih =>
    by_cases h : c = sep
    · subst h
      rw [split_cons_sep, List.mem_cons] at hp
      rcases hp with rfl | hp
      · simp
      · exact ih p hp
    · rw [split_cons_ne sep c cs h] at hp
      have hne := split_ne_nil sep cs
      cases hs : split sep cs with
      | nil => exact absurd hs hne
      | cons r rs =>
        rw [hs] at hp ih
        simp only [List.headI_cons, List.tail_cons, List.mem_cons] at hp
        rcases hp with rfl | hp
        · have hr := ih r (by simp)
          simp only [List.mem_cons, not_or]
          exact ⟨fun e => h e.symm, hr⟩
        · exact ih p (List.mem_cons_of_mem _ hp)

/-- Every group the reader returns is well formed. -/
theorem readQuestionsFromFile_wellFormed (text : JSString) (g : List JSString)
    (hg : g ∈ readQuestionsFromFile text) : WellFormedGroup g := by
  refine ⟨?_, fun q hq => ?_⟩
  · intro e
    subst e
    simp [readQuestionsFromFile] at hg
  · have hmem : q ∈ (readQuestionsFromFile text).flatten := List.mem_flatten.2 ⟨g, hg, hq⟩
    rw [readQuestionsFromFile_flatten, nonEmptyLines, List.mem_filter] at hmem
    refine ⟨by simpa using hmem.2, not_mem_of_mem_split '\n' text q hmem.1⟩

/-- C11: for every input text, writing the collection parsed from it and
parsing the written text again gives the same collection. -/
theorem read_save_read (t : JSString) :
    readQuestionsFromFile (saveQuestionsToFile (readQuestionsFromFile t)).written =
      readQuestionsFromFile t := by
  rw [saveQuestionsToFile_written, readQuestionsFromFile_eq (collectionText _)]
  exact parseFrom_collectionText _ (fun g hg => readQuestionsFromFile_wellFormed t g hg)

/-- C16: for every input text, the groups of the parsed collection put end to
end are exactly the non-empty pieces of the text split on the newline, in
their original order; nothing is lost, duplicated or reordered. -/
theorem readQuestionsFromFile_keeps_lines (text : JSString) :
    (readQuestionsFromFile text).flatten =
      (split '\n' text).filter (fun line => line != []) :=
  readQuestionsFromFile_flatten text

/-- C17: for every input text, every question string in every group of the
parsed collection is non-empty and holds no newline character. -/
theorem readQuestionsFromFile_strings (text : JSString) (g : List JSString) (q : JSString)
    (hg : g ∈ readQuestionsFromFile text) (hq : q ∈ g) : q ≠ [] ∧ '\n' ∉ q :=
  (readQuestionsFromFile_wellFormed text g hg).2 q hq

theorem readQuestionsFromFile_strings_witness :
    ["a\r".toList, " b".toList] ∈ readQuestionsFromFile "\na\r\n b\n\nc".toList ∧
    " b".toList ∈ ["a\r".toList, " b".toList] ∧
    (" b".toList ≠ [] ∧ '\n' ∉ " b".toList) :=
  ⟨by decide, by decide,
    readQuestionsFromFile_strings "\na\r\n b\n\nc".toList ["a\r".toList, " b".toList]
      " b".toList (by decide) (by decide)⟩

/-! ### `structureResponse`, the one-line branch in general -/

theorem split_replicate_sep (sep : Char) (n : Nat) :
    split sep (List.replicate n sep) = List.replicate (n + 1) [] := by
  induction n with
  | zero => rfl
  | succ n ih => rw [List.replicate_succ, split_cons_sep, ih, ← List.replicate_succ]

/-- C14: for every response that is empty or made of newline characters only,
`structureResponse` returns the empty sequence. -/
theorem structureResponse_no_line (response : JSString) (h : ∀ c ∈ response, c = '\n') :
    structureResponse response = .ok [] := by
  have e : response = List.replicate response.length '\n' :=
    List.eq_replicate_iff.2 ⟨rfl, h⟩
  have hf : (split '\n' response).filter (fun question => question != []) = [] := by
    rw [e, split_replicate_sep, List.filter_eq_nil_iff]
    intro q hq
    simp [(List.mem_replicate.1 hq).2]
  simp [structureResponse, hf]

theorem structureResponse_no_line_witness :
    (∀ c ∈ "\n\n\n".toList, c = '\n') ∧ structureResponse "\n\n\n".toList = .ok [] ∧
    structureResponse [] = .ok [] :=
  ⟨by decide, structureResponse_no_line "\n\n\n".toList (by decide),
    structureResponse_no_line [] (by decide)⟩

/-- The one-line branch when the question-mark split leaves no segment. -/
theorem structureResponse_of_no_segment (response line : JSString)
    (h1 : nonEmptyLines response = [line])
    (h2 : (split '?' line).filter (fun question => question != []) = []) :
    structureResponse response = .error .typeError := by
  simp only [nonEmptyLines] at h1
  simp [structureResponse, h1, h2]

/-- The one-line branch when the question-mark split leaves a segment. -/
theorem structureResponse_of_line (response line first : JSString) (rest : List JSString)
    (h1 : nonEmptyLines response = [line])
    (h2 : (split '?' line).filter (fun question => question != []) = first :: rest) :
    structureResponse response =
      .ok ((((if startsWith first questionsPrefix then slice first 11 else first) :: rest).map
        (fun elem => trim elem)).map (fun elem => elem ++ ['?'])) := by
  simp only [nonEmptyLines] at h1
  by_cases h3 : startsWith first questionsPrefix = true
  · simp [structureResponse, h1, h2, h3]
  · simp [structureResponse, h1, h2, h3]

theorem mem_trim (c : Char) (s : JSString) (h : c ∈ trim s) : c ∈ s := by
  simp only [trim, trimEnd, trimStart, List.mem_reverse] at h
  have h1 := (List.dropWhile_sublist isWhiteSpace).mem h
  rw [List.mem_reverse] at h1
  exact (List.dropWhile_sublist isWhiteSpace).mem h1

theorem head?_dropWhile_all (s : JSString) :
    (s.dropWhile isWhiteSpace).head?.all (fun c => !isWhiteSpace c) = true := by
  have h := List.head?_dropWhile_not isWhiteSpace s
  cases hs : (s.dropWhile isWhiteSpace).head? with
  | none => rfl
  | some a =>
    rw [hs] at h
    simp [h]

theorem noOuterWhiteSpace_trim (s : JSString) : NoOuterWhiteSpace (trim s) := by
  have ht := head?_dropWhile_all s
  have hu := head?_dropWhile_all (trimStart s).reverse
  obtain ⟨v, hv⟩ := List.dropWhile_suffix (l := (trimStart s).reverse) isWhiteSpace
  refine ⟨?_, ?_⟩
  · -- the head of the result is the head of `trimStart s`
    have e : trimStart s = trim s ++ v.reverse := by
      have := congrArg List.reverse hv
      simp only [List.reverse_append, List.reverse_reverse] at this
      rw [trim, trimEnd]
      exact this.symm
    cases hts : trim s with
    | nil => rfl
    | cons a w =>
      rw [hts] at e
      have ht' : (trimStart s).head?.all (fun c => !isWhiteSpace c) = true := ht
      rw [e] at ht'
      simpa using ht'
  · rw [trim, trimEnd, List.getLast?_reverse]
    exact hu

theorem trim_eq_nil (s : JSString) (h : ∀ c ∈ s, isWhiteSpace c = true) : trim s = [] := by
  have e : trimStart s = [] := List.dropWhile_eq_nil_iff.2 h
  simp [trim, e, trimEnd]

theorem not_startsWith_of_whiteSpace (seg : JSString) (hne : seg ≠ [])
    (h : ∀ c ∈ seg, isWhiteSpace c = true) : startsWith seg questionsPrefix = false := by
  cases seg with
  | nil => exact absurd rfl hne
  | cons c cs =>
    have hc : isWhiteSpace c = true := h c (by simp)
    have hQ : isWhiteSpace 'Q' = false := by decide
    have hcQ : ¬ 'Q' = c := by
      intro e
      rw [← e, hQ] at hc
      exact Bool.noConfusion hc
    simp [startsWith, questionsPrefix, List.isPrefixOf, hcQ]

/-- C15: when the response has exactly one non-empty line and
`structureResponse` returns, every string returned is a body without question
mark and without leading or trailing whitespace, followed by one `?`. -/
theorem structureResponse_shape (response line : JSString) (out : List JSString)
    (h1 : nonEmptyLines response = [line]) (hout : structureResponse response = .ok out)
    (s : JSString) (hs : s ∈ out) :
    ∃ body, s = body ++ ['?'] ∧ '?' ∉ body ∧ NoOuterWhiteSpace body := by
  cases h2 : (split '?' line).filter (fun question => question != []) with
  | nil =>
    rw [structureResponse_of_no_segment response line h1 h2] at hout
    exact Except.noConfusion hout
  | cons first rest =>
    rw [structureResponse_of_line response line first rest h1 h2] at hout
    have hout' := Except.ok.inj hout
    rw [← hout', List.map_map] at hs
    obtain ⟨x, hx, rfl⟩ := List.mem_map.1 hs
    have hsegs : ∀ y ∈ first :: rest, '?' ∉ y := by
      intro y hy
      rw [← h2, List.mem_filter] at hy
      exact not_mem_of_mem_split '?' line y hy.1
    have hxq : '?' ∉ x := by
      rcases List.mem_cons.1 hx with rfl | hx'
      · have hf := hsegs first (by simp)
        split_ifs
        · exact fun hm => hf (List.mem_of_mem_drop hm)
        · exact hf
      · exact hsegs x (List.mem_cons_of_mem _ hx')
    exact ⟨trim x, rfl, fun hm => hxq (mem_trim _ _ hm), noOuterWhiteSpace_trim x⟩

theorem structureResponse_shape_witness :
    nonEmptyLines "\nQuestions:  A ? b?? \n".toList = ["Questions:  A ? b?? ".toList] ∧
    structureResponse "\nQuestions:  A ? b?? \n".toList =
      .ok ["A?".toList, "b?".toList, "?".toList] ∧
    ∃ body, "b?".toList = body ++ ['?'] ∧ '?' ∉ body ∧ NoOuterWhiteSpace body :=
  ⟨by decide, by decide,
    structureResponse_shape "\nQuestions:  A ? b?? \n".toList "Questions:  A ? b?? ".toList
      ["A?".toList, "b?".toList, "?".toList] (by decide) (by decide) "b?".toList (by decide)⟩

/-- C18: empty segments are filtered out before the trim, so a segment made of
whitespace only survives as the bare string `"?"`: this happens on
`"What is X? "`, and in general, for every response with exactly one non-empty
line, a whitespace-only segment at position `i` among the non-empty segments
between question marks gives `"?"` at position `i` of the result. -/
theorem structureResponse_whitespace_segment :
    structureResponse "What is X? ".toList = .ok ["What is X?".toList, "?".toList] ∧
    ∀ (response line : JSString) (i : Nat) (seg : JSString),
      nonEmptyLines response = [line] →
      ((split '?' line).filter (fun question => question != []))[i]? = some seg →
      (∀ c ∈ seg, isWhiteSpace c = true) →
      ∃ out, structureResponse response = .ok out ∧
        out.length = ((split '?' line).filter (fun question => question != [])).length ∧
        out[i]? = some ['?'] := by
  refine ⟨by decide, fun response line i seg h1 hi hws => ?_⟩
  have hne : seg ≠ [] := by
    have hm := List.mem_iff_getElem?.2 ⟨i, hi⟩
    rw [List.mem_filter] at hm
    simpa using hm.2
  cases h2 : (split '?' line).filter (fun question => question != []) with
  | nil =>
    rw [h2] at hi
    simp at hi
  | cons first rest =>
    rw [h2] at hi
    refine ⟨_, structureResponse_of_line response line first rest h1 h2, by simp, ?_⟩
    cases i with
    | zero =>
      have hf : first = seg := by simpa using hi
      subst hf
      simp [not_startsWith_of_whiteSpace first hne hws, trim_eq_nil first hws]
    | succ k =>
      have hk : rest[k]? = some seg := by simpa using hi
      simp [hk, trim_eq_nil seg hws]

theorem structureResponse_whitespace_segment_witness :
    ∃ out, structureResponse " \r? a?\t ?".toList = .ok out ∧
      out.length =
        ((split '?' " \r? a?\t ?".toList).filter (fun question => question != [])).length ∧
      out[2]? = some ['?'] :=
  structureResponse_whitespace_segment.2 " \r? a?\t ?".toList " \r? a?\t ?".toList 2
    "\t ".toList (by decide) (by decide) (by decide)

/-! ### `getTextFromPDF`, page count and order -/

theorem getTextFromPDF_loop_eq_mapM (doc : PDFDocument) (remaining i : Nat)
    (pageTexts : List JSString) :
    getTextFromPDF.loop doc remaining i pageTexts =
      (List.range' i remaining).mapM (pageText doc) >>= fun texts =>
        pure (pageTexts ++ texts) := by
  induction remaining generalizing i pageTexts with
  | zero =>
    rw [getTextFromPDF.loop, List.range'_zero, List.mapM_nil]
    simp [pure, Except.pure, bind, Except.bind]
  | succ n ih =>
    rw [getTextFromPDF.loop, List.range'_succ, List.mapM_cons]
    cases hp : doc.getPage i with
    | error e => simp [pageText, hp, bind, Except.bind]
    | ok page =>
      cases hc : page.getTextContent with
      | error e => simp [pageText, hp, hc, bind, Except.bind]
      | ok content =>
        simp only [pageText, hp, hc, bind, Except.bind, pure, Except.pure, ih]
        cases (List.range' (i + 1) n).mapM (pageText doc) with
        | error e => rfl
        | ok texts => simp

theorem mapM_ok_length {α β : Type} (f : α → Except JSError β) (l : List α) (ys : List β)
    (h : l.mapM f = .ok ys) :
    ys.length = l.length ∧
      ∀ (k : Nat) (x : α), l[k]? = some x → (ys[k]?).map Except.ok = some (f x) := by
  induction l generalizing ys with
  | nil =>
    simp only [List.mapM_nil, pure, Except.pure] at h
    have := Except.ok.inj h
    subst this
    simp
  | cons a l ih =>
    rw [List.mapM_cons] at h
    cases ha : f a with
    | error e =>
      simp only [ha, bind, Except.bind] at h
      exact Except.noConfusion h
    | ok b =>
      cases hl : l.mapM f with
      | error e =>
        simp only [ha, hl, bind, Except.bind] at h
        exact Except.noConfusion h
      | ok bs =>
        simp only [ha, hl, bind, Except.bind, pure, Except.pure] at h
        have := Except.ok.inj h
        subst this
        obtain ⟨h1, h2⟩ := ih bs hl
        refine ⟨by simp [h1], fun k x hk => ?_⟩
        cases k with
        | zero =>
          have : a = x := by simpa using hk
          subst this
          simp [ha]
        | succ k => simpa using h2 k x (by simpa using hk)

/-- C13: for a document that loads, `getTextFromPDF` runs the page step on
the pages `1, 2, .., numPages` in this order, each exactly once, stopping at
the first page that fails; when it returns, the result has exactly `numPages`
strings and the string at position `i` is the text of page `i + 1`, computed
from that page alone. -/
theorem getTextFromPDF_pages (getDocument : JSString → Except JSError PDFDocument)
    (path : JSString) (doc : PDFDocument) (hdoc : getDocument path = .ok doc) :
    getTextFromPDF getDocument path = (List.range' 1 doc.numPages).mapM (pageText doc) ∧
    ∀ pageTexts, getTextFromPDF getDocument path = .ok pageTexts →
      pageTexts.length = doc.numPages ∧
      ∀ i, i < doc.numPages → (pageTexts[i]?).map Except.ok = some (pageText doc (i + 1)) := by
  have e : getTextFromPDF getDocument path =
      (List.range' 1 doc.numPages).mapM (pageText doc) := by
    simp only [getTextFromPDF, hdoc, bind, Except.bind, getTextFromPDF_loop_eq_mapM,
      List.nil_append]
    cases (List.range' 1 doc.numPages).mapM (pageText doc) <;> rfl
  refine ⟨e, fun pageTexts h => ?_⟩
  rw [e] at h
  obtain ⟨h1, h2⟩ := mapM_ok_length (pageText doc) _ pageTexts h
  refine ⟨by simpa using h1, fun i hi => ?_⟩
  have hk : (List.range' 1 doc.numPages)[i]? = some (i + 1) := by
    rw [List.getElem?_range' _ _ hi]
    simp [Nat.add_comm]
  exact h2 i (i + 1) hk

theorem getTextFromPDF_pages_witness :
    getTextFromPDF (fun _ => .ok (docOfPages [["a".toList, "b".toList], [], ["c".toList]]))
        "doc.pdf".toList = .ok ["a,b".toList, [], "c".toList] ∧
    ["a,b".toList, [], "c".toList].length = 3 ∧
    pageText (docOfPages [["a".toList, "b".toList], [], ["c".toList]]) 3 = .ok "c".toList :=
  ⟨by decide, by decide, by
    have h := ((getTextFromPDF_pages
      (fun _ => .ok (docOfPages [["a".toList, "b".toList], [], ["c".toList]]))
      "doc.pdf".toList (docOfPages [["a".toList, "b".toList], [], ["c".toList]]) rfl).2
      ["a,b".toList, [], "c".toList] (by decide)).2 2 (by decide)
    simpa using h.symm⟩

/-! ### `saveQuestionsToFile` and write errors -/

theorem foldl_write_state (pageArr : List JSString) (file : FileState) :
    pageArr.foldl (fun file question => file.write (question ++ ['\n'])) file =
      { file with
        stream := pageArr.foldl (fun file question => file.write (question ++ ['\n']))
          file.stream
        writes := file.writes + pageArr.length } := by
  induction pageArr generalizing file with
  | nil => rfl
  | cons q qs ih =>
    rw [List.foldl_cons, ih]
    simp [FileState.write, Nat.add_assoc, Nat.add_comm 1]

theorem foldl_group_state (arr : List (List JSString)) (file : FileState) :
    arr.foldl (fun file pageArr =>
        let file := pageArr.foldl (fun file question => file.write (question ++ ['\n'])) file
        file.write ['\n']) file =
      { file with
        stream := arr.foldl (fun file pageArr =>
          let file := pageArr.foldl (fun file question => file.write (question ++ ['\n'])) file
          file.write ['\n']) file.stream
        writes := file.writes + writeCount arr } := by
  induction arr generalizing file with
  | nil => rfl
  | cons g gs ih =>
    rw [List.foldl_cons, ih, foldl_write_state]
    simp only [FileState.write, writeCount, List.map_cons, List.sum_cons, List.foldl_cons]
    congr 1
    omega

/-- The state the calls of `saveQuestionsToFile` leave the stream in. -/
theorem saveQuestionsToFileOnStream_eq (arr : List (List JSString)) :
    saveQuestionsToFileOnStream arr =
      { stream := saveQuestionsToFile arr, errorListener := true, writes := writeCount arr } := by
  simp only [saveQuestionsToFileOnStream, foldl_group_state, FileState.endStream,
    FileState.onError, createFileState, saveQuestionsToFile, Nat.zero_add]

/-- Without a listener the error of a failing stream is thrown. -/
theorem settle_without_listener (err chunk : JSString) :
    (createFileState.write chunk).settle (fun _ => some err) =
      { log := [], uncaught := some err } := by
  simp [FileState.settle, firstFailure, FileState.operations, createFileState,
    FileState.write, WriteStream.write, createWriteStream, List.range_succ_eq_map]

/-- Five writes that all fail: the first failure destroys the stream, so one
line is logged in all. -/
theorem failing_writes_example :
    writeCount [["a".toList, "b".toList, "c".toList, "d".toList]] = 5 ∧
    (saveQuestionsToFileOnStream [["a".toList, "b".toList, "c".toList, "d".toList]]).settle
        (fun k => if k = 0 then none else some "EIO".toList) =
      { log := [("File write error:".toList, "EIO".toList)], uncaught := none } := by
  decide

/-- The empty collection on a file that cannot be opened: the failure of the
open is logged. -/
theorem failing_open_example :
    (saveQuestionsToFileOnStream []).settle
        (fun k => if k = 0 then some "ENOENT".toList else none) =
      { log := [("File write error:".toList, "ENOENT".toList)], uncaught := none } := by
  decide

/-- C12: whatever failures the stream meets (at the open, at any write, at the
close), `saveQuestionsToFile` makes the same calls as without failure and
returns with the stream ended; no error reaches the caller or stays uncaught,
and the error of the stream, if there is one, is reported on the log by the
listener, in one line. -/
theorem saveQuestionsToFile_swallows_errors (env : Nat → Option JSString)
    (arr : List (List JSString)) :
    (saveQuestionsToFileOnStream arr).stream = saveQuestionsToFile arr ∧
    (saveQuestionsToFileOnStream arr).stream.ended = true ∧
    ((saveQuestionsToFileOnStream arr).settle env).uncaught = none ∧
    ((saveQuestionsToFileOnStream arr).settle env).log =
      ((firstFailure env (1 + writeCount arr + 1)).map
        (fun err => ("File write error:".toList, err))).toList := by
  have hops : (saveQuestionsToFileOnStream arr).operations = 1 + writeCount arr + 1 := by
    rw [saveQuestionsToFileOnStream_eq]
    rfl
  have hl : (saveQuestionsToFileOnStream arr).errorListener = true := by
    rw [saveQuestionsToFileOnStream_eq]
  refine ⟨by rw [saveQuestionsToFileOnStream_eq], by rw [saveQuestionsToFileOnStream_eq]; rfl,
    ?_, ?_⟩
  · simp only [FileState.settle, hops, hl, if_true]
    cases firstFailure env (1 + writeCount arr + 1) <;> rfl
  · simp only [FileState.settle, hops, hl, if_true]
    cases firstFailure env (1 + writeCount arr + 1) <;> rfl

end NodePdfjs
